import Mathlib

/-!
Shallow embedding of the auction application in `src/auctions/` (models.py,
views.py).  Monetary amounts are `DecimalField(max_digits=11, decimal_places=2)`
values; we embed them as integers (cents), which preserves ordering, equality
and Python truthiness (`Decimal("0.00")` is falsy, every other value truthy).
Database rows are lists of records, with Django auto-increment primary keys
modelled by explicit counters in the application state.
-/

namespace Commerce

/-- A listing row (models.py, class Listing).  `owner` and `winner` hold user
ids; `winner` is nullable.  `date_created` is immutable metadata used by no
view logic and is omitted. -/
structure Listing where
  id : Nat
  owner : Nat
  title : String
  description : String
  starting_bid : Int
  image_url : String
  category : String
  active : Bool
  winner : Option Nat
deriving DecidableEq, Repr

/-- A bid row (models.py, class Bid). -/
structure Bid where
  id : Nat
  amount : Int
  bidder : Nat
  listing : Nat
deriving DecidableEq, Repr

/-- A comment row (models.py, class Comment); `author` is nullable
(`on_delete=SET(...)`). -/
structure Comment where
  content : String
  author : Option Nat
  listing : Nat
deriving DecidableEq, Repr

/-- A watchlist row (models.py, class Watchlist): a user id plus the
many-to-many set of listing ids.  `user` is a plain foreign key, so the scheme
does not itself forbid several rows per user. -/
structure Watchlist where
  user : Nat
  listing : List Nat
deriving DecidableEq, Repr

/-- The persistent state: the four tables and the auto-increment counters. -/
structure AppState where
  listings : List Listing
  bids : List Bid
  comments : List Comment
  watchlists : List Watchlist
  nextListingId : Nat
  nextBidId : Nat
deriving DecidableEq, Repr

/-- `get_object_or_404(Listing, pk=pk)` : the listing with primary key `pk`,
if any. -/
def findListing (s : AppState) (pk : Nat) : Option Listing :=
  s.listings.find? (fun l => l.id == pk)

/-- `listing.bids` : the bid rows whose foreign key is this listing. -/
def listingBids (s : AppState) (pk : Nat) : List Bid :=
  s.bids.filter (fun b => b.listing == pk)

/-- `bids.aggregate(Max("amount"))["amount__max"]` : the maximum amount over
the rows, `None` when there are no rows. -/
def aggregateMaxAmount : List Bid → Option Int
  | [] => none
  | b :: bs =>
    match aggregateMaxAmount bs with
    | none => some b.amount
    | some m => some (max b.amount m)

/-- Python `x or y` applied to an optional Decimal `x`: the fallback `y` is
taken when `x` is `None` and also when `x` is the falsy value `0`. -/
def pyOrDecimal (x : Option Int) (y : Int) : Int :=
  match x with
  | none => y
  | some v => if v = 0 then y else v

/-- `listing.price` as computed in `ListingView._get_listing`,
`BidFormView._get_listing` and `_add_listing_display_attributes`:
`bids.aggregate(Max("amount"))["amount__max"] or starting_bid`. -/
def listingPrice (s : AppState) (l : Listing) : Int :=
  pyOrDecimal (aggregateMaxAmount (listingBids s l.id)) l.starting_bid

/-- Outcome of a bid submission (`BidFormView.form_valid`), distinguished in
the source only by the flashed message and whether `form.save()` runs. -/
inductive BidResult
  | notFound
  | rejectedTooLow
  | rejectedBelowStarting
  | accepted
deriving DecidableEq, Repr

/-- `form.save()` on a `BidForm`: insert one bid row with a fresh primary
key. -/
def saveBid (s : AppState) (bidder pk : Nat) (amount : Int) : AppState :=
  { s with
    bids := s.bids ++ [⟨s.nextBidId, amount, bidder, pk⟩]
    nextBidId := s.nextBidId + 1 }

/-- `BidFormView.form_valid` (views.py lines 103-121).  The listing's `price`
is the aggregate maximum `or` the starting bid; the first guard fires when
bids exist and the amount does not exceed the price, the second when the
amount is below the price.  Note that the listing's `active` flag is never
consulted. -/
def BidFormView.form_valid (s : AppState) (bidder pk : Nat) (amount : Int) :
    BidResult × AppState :=
  match findListing s pk with
  | none => (.notFound, s)
  | some listing =>
    let price := pyOrDecimal (aggregateMaxAmount (listingBids s pk)) listing.starting_bid
    if listingBids s pk ≠ [] ∧ amount ≤ price then
      (.rejectedTooLow, s)
    else if amount < price then
      (.rejectedBelowStarting, s)
    else
      (.accepted, saveBid s bidder pk amount)

/-- `m` is the maximum bid amount of the list: attained by some row and an
upper bound of every row. -/
def IsMaxAmount (bs : List Bid) (m : Int) : Prop :=
  m ∈ bs.map (fun b => b.amount) ∧ ∀ b ∈ bs, b.amount ≤ m

instance (bs : List Bid) (m : Int) : Decidable (IsMaxAmount bs m) := by
  unfold IsMaxAmount; infer_instance

lemma aggregateMaxAmount_eq_none {bs : List Bid} :
    aggregateMaxAmount bs = none ↔ bs = [] := by
  cases bs with
  | nil => simp [aggregateMaxAmount]
  | cons b bs =>
    simp only [aggregateMaxAmount]
    cases aggregateMaxAmount bs <;> simp

lemma aggregateMaxAmount_isMax {bs : List Bid} {m : Int}
    (h : aggregateMaxAmount bs = some m) : IsMaxAmount bs m := by
  induction bs generalizing m with
  | nil => simp [aggregateMaxAmount] at h
  | cons b bs ih =>
    simp only [aggregateMaxAmount] at h
    cases hbs : aggregateMaxAmount bs with
    | none =>
      rw [hbs] at h
      obtain rfl : b.amount = m := by simpa using h
      have hnil : bs = [] := aggregateMaxAmount_eq_none.mp hbs
      subst hnil
      exact ⟨by simp, by simp⟩
    | some m' =>
      rw [hbs] at h
      obtain rfl : max b.amount m' = m := by simpa using h
      obtain ⟨hmem, hub⟩ := ih hbs
      rcases max_cases b.amount m' with ⟨heq, hle⟩ | ⟨heq, hlt⟩
      · refine ⟨by simp [heq], ?_⟩
        intro c hc
        rcases List.mem_cons.mp hc with rfl | hc
        · simp [heq]
        · exact le_trans (hub c hc) (by rw [heq]; exact hle)
      · refine ⟨by simp only [heq]; exact List.mem_cons_of_mem _ hmem, ?_⟩
        intro c hc
        rcases List.mem_cons.mp hc with rfl | hc
        · rw [heq]; exact le_of_lt hlt
        · rw [heq]; exact hub c hc

lemma aggregateMaxAmount_pos {bs : List Bid} {m : Int}
    (hpos : ∀ b ∈ bs, 0 < b.amount) (h : aggregateMaxAmount bs = some m) :
    0 < m := by
  obtain ⟨hmem, _⟩ := aggregateMaxAmount_isMax h
  obtain ⟨b, hb, hbm⟩ := List.mem_map.mp hmem
  exact hbm ▸ hpos b hb

lemma aggregateMaxAmount_of_ne_nil {bs : List Bid} (h : bs ≠ []) :
    ∃ m, aggregateMaxAmount bs = some m := by
  cases hagg : aggregateMaxAmount bs with
  | none => exact absurd (aggregateMaxAmount_eq_none.mp hagg) h
  | some m => exact ⟨m, rfl⟩

/-- Outcome of the `close` view: the warning branch (no bids) or the success
branch naming the winner.  The source has no authorization failure outcome:
the view carries only `login_required`. -/
inductive CloseResult
  | closedNoBids
  | closedWithWinner (winner : Nat)
deriving DecidableEq, Repr

/-- `Listing.objects.filter(pk=pk).update(...)` : apply `f` to the rows whose
primary key is `pk` (a no-op when no row matches). -/
def updateListing (s : AppState) (pk : Nat) (f : Listing → Listing) : AppState :=
  { s with listings := s.listings.map (fun l => if l.id = pk then f l else l) }

/-- An admissible result of `Bid.objects.filter(listing=pk).order_by("-amount")`:
a permutation of the listing's bid rows that is sorted by amount descending.
SQL `ORDER BY amount DESC` fixes nothing about the relative order of rows with
equal amounts, so every such permutation is a possible database answer. -/
def OrderedByAmountDesc (s : AppState) (pk : Nat) (ord : List Bid) : Prop :=
  ord.Perm (listingBids s pk) ∧ ord.Sorted (fun a b => b.amount ≤ a.amount)

instance (s : AppState) (pk : Nat) (ord : List Bid) :
    Decidable (OrderedByAmountDesc s pk ord) := by
  unfold OrderedByAmountDesc; infer_instance

/-- The `close` view (views.py lines 257-275).  `ord` is the row sequence the
database returns for `order_by("-amount")`; indexing `[0]` on an empty
sequence raises `IndexError`, whose handler updates only `active`.  The
requesting user is consulted nowhere beyond `login_required`. -/
def close (s : AppState) (requester pk : Nat) (ord : List Bid) :
    CloseResult × AppState :=
  match ord with
  | [] =>
    (.closedNoBids, updateListing s pk (fun l => { l with active := false }))
  | top :: _ =>
    (.closedWithWinner top.bidder,
     updateListing s pk (fun l => { l with active := false, winner := some top.bidder }))

/-- Outcome of the `watch` view. -/
inductive WatchResult
  | notFound
  | alreadyWatched
  | added
deriving DecidableEq, Repr

/-- `Watchlist.objects.filter(user=u, listing=pk).exists()` : does some
watchlist row of this user contain the listing. -/
def watchPairExistsL (ws : List Watchlist) (u pk : Nat) : Bool :=
  ws.any (fun w => w.user == u && w.listing.contains pk)

/-- `Watchlist.objects.get_or_create(user=u)` followed by
`watchlist.listing.add(listing)` : add the listing id to the first watchlist
row of the user, creating the row when the user has none; the many-to-many
`add` never duplicates an existing link. -/
def addListingToRows : List Watchlist → Nat → Nat → List Watchlist
  | [], u, pk => [⟨u, [pk]⟩]
  | w :: ws, u, pk =>
    if w.user = u then
      (if pk ∈ w.listing then w else { w with listing := w.listing ++ [pk] }) :: ws
    else
      w :: addListingToRows ws u pk

/-- The `watch` view (views.py lines 217-234). -/
def watch (s : AppState) (u pk : Nat) : WatchResult × AppState :=
  match findListing s pk with
  | none => (.notFound, s)
  | some _ =>
    if watchPairExistsL s.watchlists u pk then
      (.alreadyWatched, s)
    else
      (.added, { s with watchlists := addListingToRows s.watchlists u pk })

/-- Outcome of the `unwatch` view.  `watchlistMissing` is the uncaught
`Watchlist.DoesNotExist` (or `MultipleObjectsReturned`) exception raised by
`Watchlist.objects.get(user=request.user)`. -/
inductive UnwatchResult
  | notFound
  | watchlistMissing
  | removed
deriving DecidableEq, Repr

/-- The `unwatch` view (views.py lines 238-244).  `Watchlist.objects.get`
succeeds only when the user has exactly one watchlist row; the many-to-many
`remove` deletes the link when present and is a silent no-op otherwise. -/
def unwatch (s : AppState) (u pk : Nat) : UnwatchResult × AppState :=
  match findListing s pk with
  | none => (.notFound, s)
  | some _ =>
    match s.watchlists.filter (fun w => w.user == u) with
    | [_] =>
      (.removed,
       { s with watchlists := s.watchlists.map (fun w =>
           if w.user = u then
             { w with listing := w.listing.filter (fun x => x != pk) }
           else w) })
    | _ => (.watchlistMissing, s)

/-- Number of watchlist membership rows linking user `u` to listing `pk`. -/
def membershipCountL (ws : List Watchlist) (u pk : Nat) : Nat :=
  (ws.filter (fun w => w.user == u && w.listing.contains pk)).length

/-- Membership count inside a state. -/
def membershipCount (s : AppState) (u pk : Nat) : Nat :=
  membershipCountL s.watchlists u pk

/-- The `create` view, POST branch (views.py lines 202-213): insert one
listing row with the requester as owner; `active` defaults to `True` and
`winner` to `NULL` per the model. -/
def createListing (s : AppState) (owner : Nat) (title description : String)
    (starting_bid : Int) (image_url category : String) : AppState :=
  { s with
    listings := s.listings ++
      [⟨s.nextListingId, owner, title, description, starting_bid,
        image_url, category, true, none⟩]
    nextListingId := s.nextListingId + 1 }

/-- `CommentFormView.form_valid` (views.py lines 124-137): insert one comment
row; `none` models the 404 on a missing listing. -/
def CommentFormView.form_valid (s : AppState) (author pk : Nat)
    (content : String) : Option AppState :=
  match findListing s pk with
  | none => none
  | some _ => some { s with comments := s.comments ++ [⟨content, some author, pk⟩] }

/-- One user-visible mutating operation of the application, relating the state
before to the state after.  The `closeAuction` constructor quantifies over the
admissible database orderings of the listing's bids. -/
inductive Step : AppState → AppState → Prop
  | create (s : AppState) (owner : Nat) (title description : String)
      (starting_bid : Int) (image_url category : String) :
      Step s (createListing s owner title description starting_bid image_url category)
  | placeBid (s : AppState) (bidder pk : Nat) (amount : Int) :
      Step s (BidFormView.form_valid s bidder pk amount).2
  | comment (s : AppState) (author pk : Nat) (content : String) (t : AppState)
      (h : CommentFormView.form_valid s author pk content = some t) :
      Step s t
  | watchAdd (s : AppState) (u pk : Nat) :
      Step s (watch s u pk).2
  | watchRemove (s : AppState) (u pk : Nat) :
      Step s (unwatch s u pk).2
  | closeAuction (s : AppState) (requester pk : Nat) (ord : List Bid)
      (h : OrderedByAmountDesc s pk ord) :
      Step s (close s requester pk ord).2

/-- The state invariant of §3 of the data model: a winner is recorded only on
an inactive listing that has at least one bid. -/
def Inv (s : AppState) : Prop :=
  ∀ l ∈ s.listings, l.winner ≠ none → l.active = false ∧ listingBids s l.id ≠ []

instance (s : AppState) : Decidable (Inv s) := by
  unfold Inv; infer_instance

lemma isMaxAmount_agg {bs : List Bid} {m : Int} (h : IsMaxAmount bs m) :
    aggregateMaxAmount bs = some m := by
  obtain ⟨hmem, hub⟩ := h
  obtain ⟨b, hb, rfl⟩ := List.mem_map.mp hmem
  have hne : bs ≠ [] := by intro h0; subst h0; simp at hb
  obtain ⟨m', hm'⟩ := aggregateMaxAmount_of_ne_nil hne
  obtain ⟨hmem', hub'⟩ := aggregateMaxAmount_isMax hm'
  obtain ⟨c, hc, hcm⟩ := List.mem_map.mp hmem'
  rw [hm']
  exact congrArg some (le_antisymm (hcm ▸ hub c hc) (hub' b hb))

lemma form_valid_eq (s : AppState) (bidder pk : Nat) (amount : Int)
    (l : Listing) (hl : findListing s pk = some l) :
    BidFormView.form_valid s bidder pk amount =
      (if listingBids s pk ≠ [] ∧
            amount ≤ pyOrDecimal (aggregateMaxAmount (listingBids s pk)) l.starting_bid
       then (.rejectedTooLow, s)
       else if amount < pyOrDecimal (aggregateMaxAmount (listingBids s pk)) l.starting_bid
       then (.rejectedBelowStarting, s)
       else (.accepted, saveBid s bidder pk amount)) := by
  unfold BidFormView.form_valid
  rw [hl]

/-- Claim C1: with all recorded bid amounts positive (as the data model
requires), a proposed bid is rejected as too low exactly when bids exist and
the amount does not strictly exceed the current maximum (equality always
rejects), is rejected as below the starting price exactly when no bids exist
and the amount is strictly below `starting_bid`, and is accepted otherwise —
in particular a first bid exactly equal to `starting_bid` is accepted. -/
theorem bid_evaluator_correct (s : AppState) (bidder pk : Nat) (amount : Int)
    (l : Listing) (hl : findListing s pk = some l)
    (hpos : ∀ b ∈ listingBids s pk, 0 < b.amount) :
    (∀ m, IsMaxAmount (listingBids s pk) m →
      ((amount ≤ m →
          (BidFormView.form_valid s bidder pk amount).1 = .rejectedTooLow) ∧
       (m < amount →
          (BidFormView.form_valid s bidder pk amount).1 = .accepted))) ∧
    (listingBids s pk = [] →
      ((amount < l.starting_bid →
          (BidFormView.form_valid s bidder pk amount).1 = .rejectedBelowStarting) ∧
       (l.starting_bid ≤ amount →
          (BidFormView.form_valid s bidder pk amount).1 = .accepted))) := by
  rw [form_valid_eq s bidder pk amount l hl]
  constructor
  · intro m hm
    have hagg := isMaxAmount_agg hm
    have hne : listingBids s pk ≠ [] := by
      intro h0
      rw [h0] at hagg
      simp [aggregateMaxAmount] at hagg
    have hmpos : 0 < m := aggregateMaxAmount_pos hpos hagg
    have hprice : pyOrDecimal (aggregateMaxAmount (listingBids s pk)) l.starting_bid = m := by
      rw [hagg]
      simp only [pyOrDecimal]
      rw [if_neg (by omega : ¬ m = 0)]
    rw [hprice]
    constructor
    · intro hle
      rw [if_pos ⟨hne, hle⟩]
    · intro hlt
      rw [if_neg (by intro hc; exact absurd hc.2 (not_le.mpr hlt)),
          if_neg (by omega : ¬ amount < m)]
  · intro hnil
    have hagg : aggregateMaxAmount (listingBids s pk) = none := by
      rw [hnil]; rfl
    have hprice : pyOrDecimal (aggregateMaxAmount (listingBids s pk)) l.starting_bid
        = l.starting_bid := by
      rw [hagg]; rfl
    rw [hprice]
    constructor
    · intro hlt
      rw [if_neg (by intro hc; exact hc.1 hnil), if_pos hlt]
    · intro hle
      rw [if_neg (by intro hc; exact hc.1 hnil),
          if_neg (not_lt.mpr hle)]

/-- Claim C3: with all recorded bid amounts positive (as the data model
requires), the computed `price` is the starting bid when the listing has no
bids and the maximum bid amount when it has some. -/
theorem current_price_correct (s : AppState) (l : Listing)
    (hpos : ∀ b ∈ listingBids s l.id, 0 < b.amount) :
    (listingBids s l.id = [] → listingPrice s l = l.starting_bid) ∧
    (∀ m, IsMaxAmount (listingBids s l.id) m → listingPrice s l = m) := by
  constructor
  · intro hnil
    unfold listingPrice
    rw [hnil]
    rfl
  · intro m hm
    have hagg := isMaxAmount_agg hm
    have hmpos : 0 < m := aggregateMaxAmount_pos hpos hagg
    unfold listingPrice
    rw [hagg]
    simp only [pyOrDecimal]
    rw [if_neg (by omega : ¬ m = 0)]

/-- Claim C10: when the listing has bids but their maximum amount is the falsy
value 0, the computed `price` is the starting bid, not the maximum bid amount:
the `or` fallback tests truthiness, so a zero aggregate and an absent
aggregate are treated alike. -/
theorem zero_max_price_falls_back (s : AppState) (l : Listing)
    (hbids : listingBids s l.id ≠ [])
    (hzero : IsMaxAmount (listingBids s l.id) 0) :
    listingPrice s l = l.starting_bid := by
  have hagg := isMaxAmount_agg hzero
  unfold listingPrice
  rw [hagg]
  rfl

/-- A listing used by concrete evaluations: starting bid 100.46 (scenario of
§8 of the spec), active, no winner. -/
def sampleListing : Listing :=
  ⟨1, 1, "ziggy", "stardust", 10046, "", "music", true, none⟩

/-- A state holding only `sampleListing`, with no bids. -/
def sampleState : AppState :=
  { listings := [sampleListing], bids := [], comments := [], watchlists := [],
    nextListingId := 2, nextBidId := 1 }

/-- The same state after bids of 200.32 and 400.32 (scenario of §8). -/
def sampleStateBids : AppState :=
  { sampleState with bids := [⟨1, 20032, 10, 1⟩, ⟨2, 40032, 11, 1⟩], nextBidId := 3 }

/-- Witness for C1: on the §8 scenario state, a bid equal to the highest bid
(400.32) is rejected as too low, a higher bid is accepted, and on the fresh
state a bid of 2 is rejected as below the starting price while a first bid
equal to the starting price is accepted. -/
theorem bid_evaluator_correct_witness :
    (BidFormView.form_valid sampleStateBids 12 1 40032).1 = BidResult.rejectedTooLow ∧
    (BidFormView.form_valid sampleStateBids 12 1 40033).1 = BidResult.accepted ∧
    (BidFormView.form_valid sampleState 12 1 200).1 = BidResult.rejectedBelowStarting ∧
    (BidFormView.form_valid sampleState 12 1 10046).1 = BidResult.accepted := by
  refine ⟨?_, ?_, ?_, ?_⟩
  · exact ((bid_evaluator_correct sampleStateBids 12 1 40032 sampleListing rfl
      (by decide)).1 40032 (by decide)).1 (by decide)
  · exact ((bid_evaluator_correct sampleStateBids 12 1 40033 sampleListing rfl
      (by decide)).1 40032 (by decide)).2 (by decide)
  · exact ((bid_evaluator_correct sampleState 12 1 200 sampleListing rfl
      (by decide)).2 rfl).1 (by decide)
  · exact ((bid_evaluator_correct sampleState 12 1 10046 sampleListing rfl
      (by decide)).2 rfl).2 (by decide)

/-- Witness for C3: the computed price is 100.46 on the bid-free state and
400.32 once the two bids are recorded. -/
theorem current_price_correct_witness :
    listingPrice sampleState sampleListing = 10046 ∧
    listingPrice sampleStateBids sampleListing = 40032 := by
  constructor
  · exact (current_price_correct sampleState sampleListing (by decide)).1 rfl
  · exact (current_price_correct sampleStateBids sampleListing (by decide)).2
      40032 (by decide)

/-- A listing with starting bid 5.00 whose sole bid has the amount 0. -/
def zeroBidListing : Listing := ⟨7, 1, "z", "d", 500, "", "other", true, none⟩

/-- A state exercising the zero-amount fallback of the price computation. -/
def zeroBidState : AppState :=
  { listings := [zeroBidListing], bids := [⟨1, 0, 2, 7⟩], comments := [],
    watchlists := [], nextListingId := 8, nextBidId := 2 }

/-- Witness for C10: one bid of amount 0 exists, yet the computed price is the
starting bid 5.00 rather than 0. -/
theorem zero_max_price_falls_back_witness :
    listingPrice zeroBidState zeroBidListing = 500 :=
  zero_max_price_falls_back zeroBidState zeroBidListing (by decide) (by decide)

lemma find?_map_ite (ls : List Listing) (pk : Nat) (f : Listing → Listing)
    (hf : ∀ x, (f x).id = x.id) :
    (ls.map (fun l => if l.id = pk then f l else l)).find? (fun l => l.id == pk) =
      (ls.find? (fun l => l.id == pk)).map f := by
  induction ls with
  | nil => rfl
  | cons a ls ih =>
    by_cases h : a.id = pk
    · simp only [List.map_cons, if_pos h]
      rw [@List.find?_cons_of_pos Listing (fun l => l.id == pk) (f a) _ (by simp [hf, h]),
          @List.find?_cons_of_pos Listing (fun l => l.id == pk) a _ (by simp [h])]
      rfl
    · simp only [List.map_cons, if_neg h]
      rw [@List.find?_cons_of_neg Listing (fun l => l.id == pk) a _ (by simp [h]),
          @List.find?_cons_of_neg Listing (fun l => l.id == pk) a _ (by simp [h])]
      exact ih

lemma findListing_updateListing (s : AppState) (pk : Nat) (f : Listing → Listing)
    (hf : ∀ x, (f x).id = x.id) :
    findListing (updateListing s pk f) pk = (findListing s pk).map f :=
  find?_map_ite s.listings pk f hf

lemma head_is_max_of_ordered {s : AppState} {pk : Nat} {top : Bid} {rest : List Bid}
    (hord : OrderedByAmountDesc s pk (top :: rest)) :
    top ∈ listingBids s pk ∧ IsMaxAmount (listingBids s pk) top.amount := by
  obtain ⟨hperm, hsort⟩ := hord
  have hmem : top ∈ listingBids s pk := hperm.subset (List.mem_cons_self top rest)
  refine ⟨hmem, List.mem_map.mpr ⟨top, hmem, rfl⟩, ?_⟩
  intro c hc
  have hc' : c ∈ top :: rest := hperm.symm.subset hc
  rcases List.mem_cons.mp hc' with rfl | hc'
  · exact le_refl _
  · exact List.rel_of_sorted_cons hsort c hc'

/-- Claim C2 (amended): under any database ordering admissible for
ORDER BY amount DESC, closing a listing with no bids flashes the no-bids
outcome and stores the listing with `active := false` (winner untouched),
and closing a listing with bids stores `active := false` and the winner set
to the bidder of a bid attaining the maximum amount; which of several
equal-maximum bids is chosen is not determined by the source. -/
theorem close_result_correct (s : AppState) (requester pk : Nat) (ord : List Bid)
    (l : Listing) (hl : findListing s pk = some l)
    (hord : OrderedByAmountDesc s pk ord) :
    (listingBids s pk = [] →
       (close s requester pk ord).1 = CloseResult.closedNoBids ∧
       findListing (close s requester pk ord).2 pk = some { l with active := false }) ∧
    (listingBids s pk ≠ [] →
       ∃ b ∈ listingBids s pk, IsMaxAmount (listingBids s pk) b.amount ∧
         (close s requester pk ord).1 = CloseResult.closedWithWinner b.bidder ∧
         findListing (close s requester pk ord).2 pk =
           some { l with active := false, winner := some b.bidder }) := by
  constructor
  · intro hnil
    have hord' : ord = [] := by
      have := hord.1
      rw [hnil] at this
      exact this.eq_nil
    subst hord'
    refine ⟨rfl, ?_⟩
    rw [show (close s requester pk []).2 =
          updateListing s pk (fun l => { l with active := false }) from rfl,
        findListing_updateListing s pk (fun l => { l with active := false })
          (fun x => rfl), hl]
    rfl
  · intro hne
    cases ord with
    | nil =>
      exact absurd (hord.1.symm.eq_nil) hne
    | cons top rest =>
      obtain ⟨hmem, hmax⟩ := head_is_max_of_ordered hord
      refine ⟨top, hmem, hmax, rfl, ?_⟩
      rw [show (close s requester pk (top :: rest)).2 =
            updateListing s pk
              (fun l => { l with active := false, winner := some top.bidder }) from rfl,
          findListing_updateListing s pk
            (fun l => { l with active := false, winner := some top.bidder })
            (fun x => rfl), hl]
      rfl

/-- The §8 scenario ordering: the 400.32 bid first, then the 200.32 bid. -/
def sampleOrd : List Bid := [⟨2, 40032, 11, 1⟩, ⟨1, 20032, 10, 1⟩]

/-- Witness for C2 (amended): closing the §8 scenario state names the bidder
of the maximal 400.32 bid the winner and deactivates the listing. -/
theorem close_result_correct_witness :
    ∃ b ∈ listingBids sampleStateBids 1,
      IsMaxAmount (listingBids sampleStateBids 1) b.amount ∧
      (close sampleStateBids 1 1 sampleOrd).1 = CloseResult.closedWithWinner b.bidder ∧
      findListing (close sampleStateBids 1 1 sampleOrd).2 1 =
        some { sampleListing with active := false, winner := some b.bidder } :=
  (close_result_correct sampleStateBids 1 1 sampleOrd sampleListing rfl
    ⟨by decide, by decide⟩).2 (by decide)

/-- A listing with two bids of the same maximal amount by different bidders. -/
def tieListing : Listing := ⟨1, 1, "t", "d", 100, "", "other", true, none⟩

/-- The earlier of the two tied bids (id 1, bidder 10). -/
def tieBidEarly : Bid := ⟨1, 500, 10, 1⟩

/-- The later of the two tied bids (id 2, bidder 20). -/
def tieBidLate : Bid := ⟨2, 500, 20, 1⟩

/-- A state holding the tied bids. -/
def tieState : AppState :=
  { listings := [tieListing], bids := [tieBidEarly, tieBidLate], comments := [],
    watchlists := [], nextListingId := 2, nextBidId := 3 }

/-- Counterexample for C2: both bids carry the maximal amount 5.00 and the
most recent of them (id 2) was placed by bidder 20; yet returning the rows
with the earlier bid first is admissible for ORDER BY amount DESC, and closing
under that ordering names bidder 10 — not bidder 20 — the winner. -/
theorem close_tiebreak_counterexample :
    OrderedByAmountDesc tieState 1 [tieBidEarly, tieBidLate] ∧
    listingBids tieState 1 = [tieBidEarly, tieBidLate] ∧
    tieBidEarly.amount = tieBidLate.amount ∧
    tieBidEarly.id < tieBidLate.id ∧
    (close tieState 1 1 [tieBidEarly, tieBidLate]).1 =
      CloseResult.closedWithWinner 10 ∧
    CloseResult.closedWithWinner 10 ≠
      CloseResult.closedWithWinner tieBidLate.bidder := by
  exact ⟨⟨by decide, by decide⟩, by decide, by decide, by decide, rfl, by decide⟩

/-- Claim C4 (amended): `close` checks nothing about the requesting user
beyond authentication; a close request by a user who is not the listing's
owner proceeds and deactivates the listing exactly as the owner's would. -/
theorem close_ignores_ownership (s : AppState) (requester pk : Nat) (ord : List Bid)
    (l : Listing) (hl : findListing s pk = some l)
    (hreq : requester ≠ l.owner) (hord : OrderedByAmountDesc s pk ord) :
    ∃ l', findListing (close s requester pk ord).2 pk = some l' ∧
      l'.active = false := by
  cases ord with
  | nil =>
    refine ⟨{ l with active := false }, ?_, rfl⟩
    rw [show (close s requester pk []).2 =
          updateListing s pk (fun l => { l with active := false }) from rfl,
        findListing_updateListing s pk (fun l => { l with active := false })
          (fun x => rfl), hl]
    rfl
  | cons top rest =>
    refine ⟨{ l with active := false, winner := some top.bidder }, ?_, rfl⟩
    rw [show (close s requester pk (top :: rest)).2 =
          updateListing s pk
            (fun l => { l with active := false, winner := some top.bidder }) from rfl,
        findListing_updateListing s pk
          (fun l => { l with active := false, winner := some top.bidder })
          (fun x => rfl), hl]
    rfl

/-- An active listing owned by user 1, with no bids. -/
def ownListing : Listing := ⟨5, 1, "o", "d", 100, "", "other", true, none⟩

/-- A state holding only `ownListing`. -/
def ownState : AppState :=
  { listings := [ownListing], bids := [], comments := [], watchlists := [],
    nextListingId := 6, nextBidId := 1 }

/-- Witness for C4 (amended): user 2, who does not own listing 5, closes it
and the stored listing ends inactive. -/
theorem close_ignores_ownership_witness :
    ∃ l', findListing (close ownState 2 5 []).2 5 = some l' ∧
      l'.active = false :=
  close_ignores_ownership ownState 2 5 [] ownListing rfl (by decide)
    ⟨by decide, by decide⟩

/-- Counterexample for C4: requester 2 is not the owner (user 1) of listing 5,
which is active before the request; the close request is not rejected — after
it the stored listing is inactive, so the state did not stay unchanged. -/
theorem close_not_owner_counterexample :
    (2 : Nat) ≠ ownListing.owner ∧
    OrderedByAmountDesc ownState 5 [] ∧
    (findListing ownState 5).map Listing.active = some true ∧
    (findListing (close ownState 2 5 []).2 5).map Listing.active = some false := by
  exact ⟨by decide, ⟨by decide, by decide⟩, rfl, rfl⟩

/-- An inactive (already closed) listing with starting bid 100.00 and no
winner. -/
def closedListing : Listing := ⟨3, 1, "c", "d", 10000, "", "other", false, none⟩

/-- A state holding only the closed listing, with no bids. -/
def closedState : AppState :=
  { listings := [closedListing], bids := [], comments := [], watchlists := [],
    nextListingId := 4, nextBidId := 1 }

/-- Claim C5 (code bug evaluation): `BidFormView.form_valid` never consults
the listing's `active` flag, so a sufficiently high bid on an inactive listing
is accepted and a bid row is recorded. -/
theorem bid_on_inactive_listing_accepted :
    closedListing.active = false ∧
    (BidFormView.form_valid closedState 2 3 15000).1 = BidResult.accepted ∧
    (BidFormView.form_valid closedState 2 3 15000).2.bids =
      closedState.bids ++ [⟨1, 15000, 2, 3⟩] := by
  exact ⟨rfl, by decide, by decide⟩

lemma membership_count_zero {ws : List Watchlist} {u pk : Nat}
    (h : watchPairExistsL ws u pk = false) : membershipCountL ws u pk = 0 := by
  unfold membershipCountL
  rw [List.length_eq_zero, List.filter_eq_nil_iff]
  intro x hx
  exact List.any_eq_false.mp h x hx

lemma membership_count_one_after_add (ws : List Watchlist) (u pk : Nat)
    (h : watchPairExistsL ws u pk = false) :
    membershipCountL (addListingToRows ws u pk) u pk = 1 := by
  induction ws with
  | nil => simp [addListingToRows, membershipCountL]
  | cons w ws ih =>
    have hw : (w.user == u && w.listing.contains pk) = false :=
      Bool.eq_false_iff.mpr (List.any_eq_false.mp h w (List.mem_cons_self w ws))
    have hws : watchPairExistsL ws u pk = false := by
      rw [watchPairExistsL, List.any_eq_false]
      intro x hx
      exact List.any_eq_false.mp h x (List.mem_cons_of_mem w hx)
    unfold addListingToRows
    by_cases hu : w.user = u
    · rw [if_pos hu]
      have hc : ¬ pk ∈ w.listing := by
        intro hmem
        rw [Bool.and_eq_false_iff] at hw
        rcases hw with hw | hw
        · simp [hu] at hw
        · simp [List.elem_iff] at hw
          exact hw hmem
      rw [if_neg hc]
      unfold membershipCountL
      rw [List.filter_cons]
      have hpred : (w.user == u && (w.listing ++ [pk]).contains pk) = true := by
        simp [hu, List.elem_iff]
      rw [hpred]
      simp only [if_true, List.length_cons]
      have h0 := membership_count_zero hws
      unfold membershipCountL at h0
      omega
    · rw [if_neg hu]
      unfold membershipCountL
      rw [List.filter_cons]
      have hpred : (w.user == u && w.listing.contains pk) = false := by
        simp [hu]
      rw [hpred]
      simp only [Bool.false_eq_true, if_false]
      exact ih hws

lemma watchPairExists_addListing (ws : List Watchlist) (u pk : Nat) :
    watchPairExistsL (addListingToRows ws u pk) u pk = true := by
  induction ws with
  | nil => simp [addListingToRows, watchPairExistsL, List.elem_iff]
  | cons w ws ih =>
    unfold addListingToRows
    by_cases hu : w.user = u
    · rw [if_pos hu]
      by_cases hc : pk ∈ w.listing
      · rw [if_pos hc]
        simp [watchPairExistsL, hu, List.elem_iff, hc]
      · rw [if_neg hc]
        simp [watchPairExistsL, hu, List.elem_iff]
    · rw [if_neg hu]
      rw [watchPairExistsL, List.any_cons]
      rw [watchPairExistsL] at ih
      rw [ih, Bool.or_true]

/-- Claim C7: adding a listing that is already on the user's watchlist
reports `AlreadyWatched` and changes nothing, and from a state where the pair
is absent the first `watch` reports `Added`, leaves exactly one membership row
for the pair, and a second `watch` for the same pair reports `AlreadyWatched`
and changes nothing. -/
theorem watch_idempotent (s : AppState) (u pk : Nat) (l : Listing)
    (hl : findListing s pk = some l) :
    (watchPairExistsL s.watchlists u pk = true →
       watch s u pk = (WatchResult.alreadyWatched, s)) ∧
    (watchPairExistsL s.watchlists u pk = false →
       (watch s u pk).1 = WatchResult.added ∧
       membershipCount (watch s u pk).2 u pk = 1 ∧
       watch (watch s u pk).2 u pk =
         (WatchResult.alreadyWatched, (watch s u pk).2)) := by
  constructor
  · intro hex
    unfold watch
    rw [hl, hex]
    rfl
  · intro hex
    have hfirst : watch s u pk =
        (WatchResult.added, { s with watchlists := addListingToRows s.watchlists u pk }) := by
      unfold watch
      rw [hl, hex]
      rfl
    rw [hfirst]
    refine ⟨rfl, membership_count_one_after_add s.watchlists u pk hex, ?_⟩
    have hl' : findListing { s with watchlists := addListingToRows s.watchlists u pk } pk
        = some l := hl
    unfold watch
    rw [hl', watchPairExists_addListing s.watchlists u pk]
    rfl

/-- Witness for C7: starting from the bid-free scenario state with an empty
watchlist, the first `watch` adds and the second reports already watched. -/
theorem watch_idempotent_witness :
    (watch sampleState 2 1).1 = WatchResult.added ∧
    membershipCount (watch sampleState 2 1).2 2 1 = 1 ∧
    watch (watch sampleState 2 1).2 2 1 =
      (WatchResult.alreadyWatched, (watch sampleState 2 1).2) :=
  (watch_idempotent sampleState 2 1 sampleListing rfl).2 rfl

lemma form_valid_cases (s : AppState) (bidder pk : Nat) (amount : Int) :
    ((BidFormView.form_valid s bidder pk amount).1 = BidResult.accepted ∧
     (BidFormView.form_valid s bidder pk amount).2 = saveBid s bidder pk amount) ∨
    ((BidFormView.form_valid s bidder pk amount).1 ≠ BidResult.accepted ∧
     (BidFormView.form_valid s bidder pk amount).2 = s) := by
  unfold BidFormView.form_valid
  cases hf : findListing s pk with
  | none => right; exact ⟨by simp, rfl⟩
  | some l =>
    dsimp only
    split_ifs with h1 h2
    · right; exact ⟨by simp, rfl⟩
    · right; exact ⟨by simp, rfl⟩
    · left; exact ⟨rfl, rfl⟩

/-- Claim C8: an accepted bid changes the state exactly by appending one bid
row (with the given bidder and amount) and advancing the bid id counter —
listings, comments and watchlists are untouched — and a rejected (or
not-found) bid leaves the state entirely unchanged. -/
theorem bid_frame_conditions (s : AppState) (bidder pk : Nat) (amount : Int) :
    ((BidFormView.form_valid s bidder pk amount).1 = BidResult.accepted →
       (BidFormView.form_valid s bidder pk amount).2 =
         { s with
           bids := s.bids ++ [⟨s.nextBidId, amount, bidder, pk⟩]
           nextBidId := s.nextBidId + 1 }) ∧
    ((BidFormView.form_valid s bidder pk amount).1 ≠ BidResult.accepted →
       (BidFormView.form_valid s bidder pk amount).2 = s) := by
  rcases form_valid_cases s bidder pk amount with ⟨ha, hs⟩ | ⟨ha, hs⟩
  · exact ⟨fun _ => hs, fun hn => absurd ha hn⟩
  · exact ⟨fun hacc => absurd hacc ha, fun _ => hs⟩

/-- Witness for C8: an accepted bid of 200.00 on the fresh scenario state
appends exactly one bid row, and a rejected bid of 0.05 leaves the state
unchanged. -/
theorem bid_frame_conditions_witness :
    (BidFormView.form_valid sampleState 12 1 20000).2 =
      { sampleState with
        bids := sampleState.bids ++ [⟨1, 20000, 12, 1⟩]
        nextBidId := 2 } ∧
    (BidFormView.form_valid sampleState 12 1 5).2 = sampleState := by
  constructor
  · exact (bid_frame_conditions sampleState 12 1 20000).1 (by decide)
  · exact (bid_frame_conditions sampleState 12 1 5).2 (by decide)

lemma membership_count_after_remove (ws : List Watchlist) (u pk : Nat) :
    membershipCountL (ws.map (fun w =>
      if w.user = u then
        { w with listing := w.listing.filter (fun x => x != pk) }
      else w)) u pk = 0 := by
  unfold membershipCountL
  rw [List.length_eq_zero, List.filter_eq_nil_iff]
  intro w hw
  obtain ⟨w0, hw0, rfl⟩ := List.mem_map.mp hw
  by_cases hu : w0.user = u
  · rw [if_pos hu]
    simp [List.elem_iff, List.mem_filter]
  · rw [if_neg hu]
    simp [hu]

/-- Claim C9 (amended): when the user has exactly one watchlist row, `unwatch`
reports removal and afterwards no membership row for the pair remains —
whether or not the pair was present before — and the listings and bids tables
are untouched; when the user has no (single) watchlist row, the uncaught
`Watchlist.DoesNotExist` escapes instead of a success report. -/
theorem unwatch_removes_or_noops (s : AppState) (u pk : Nat) (l : Listing)
    (w : Watchlist) (hl : findListing s pk = some l)
    (hw : s.watchlists.filter (fun x => x.user == u) = [w]) :
    (unwatch s u pk).1 = UnwatchResult.removed ∧
    membershipCount (unwatch s u pk).2 u pk = 0 ∧
    (unwatch s u pk).2.listings = s.listings ∧
    (unwatch s u pk).2.bids = s.bids := by
  unfold unwatch
  rw [hl, hw]
  exact ⟨rfl, membership_count_after_remove s.watchlists u pk, rfl, rfl⟩

/-- A state where user 2 watches the scenario listing through one watchlist
row. -/
def watchedState : AppState :=
  { sampleState with watchlists := [⟨2, [1]⟩] }

/-- Witness for C9 (amended): user 2 has one watchlist row containing listing
1; `unwatch` reports removal and leaves no membership row. -/
theorem unwatch_removes_or_noops_witness :
    (unwatch watchedState 2 1).1 = UnwatchResult.removed ∧
    membershipCount (unwatch watchedState 2 1).2 2 1 = 0 ∧
    (unwatch watchedState 2 1).2.listings = watchedState.listings ∧
    (unwatch watchedState 2 1).2.bids = watchedState.bids :=
  unwatch_removes_or_noops watchedState 2 1 sampleListing ⟨2, [1]⟩ rfl rfl

/-- Counterexample for C9: user 5 has no watchlist row at all, and `unwatch`
on the existing listing 5 surfaces the missing-row error instead of the
uniform success the claim promises for every user. -/
theorem unwatch_missing_row_counterexample :
    ownState.watchlists.filter (fun x => x.user == 5) = [] ∧
    (unwatch ownState 5 5).1 = UnwatchResult.watchlistMissing ∧
    UnwatchResult.watchlistMissing ≠ UnwatchResult.removed :=
  ⟨rfl, rfl, by decide⟩

lemma inv_watchlists_update (s : AppState) (ws : List Watchlist)
    (h : Inv s) : Inv { s with watchlists := ws } := by
  intro l hl hwin
  exact h l hl hwin

lemma inv_comments_update (s : AppState) (cs : List Comment)
    (h : Inv s) : Inv { s with comments := cs } := by
  intro l hl hwin
  exact h l hl hwin

lemma listingBids_saveBid_ne_nil (s : AppState) (bidder pk : Nat) (amount : Int)
    (pk' : Nat) (h : listingBids s pk' ≠ []) :
    listingBids (saveBid s bidder pk amount) pk' ≠ [] := by
  unfold listingBids saveBid at *
  simp only [List.filter_append] at *
  intro hc
  rw [List.append_eq_nil] at hc
  exact h hc.1

lemma watch_state_cases (s : AppState) (u pk : Nat) :
    (watch s u pk).2 = s ∨
    (watch s u pk).2 = { s with watchlists := addListingToRows s.watchlists u pk } := by
  unfold watch
  cases hf : findListing s pk with
  | none => left; rfl
  | some l =>
    by_cases h : watchPairExistsL s.watchlists u pk
    · left; rw [if_pos h]
    · right; rw [if_neg h]

lemma unwatch_state_cases (s : AppState) (u pk : Nat) :
    (unwatch s u pk).2 = s ∨
    ∃ ws, (unwatch s u pk).2 = { s with watchlists := ws } := by
  unfold unwatch
  cases hf : findListing s pk with
  | none => left; rfl
  | some l =>
    cases hfil : s.watchlists.filter (fun w => w.user == u) with
    | nil => left; rfl
    | cons w rest =>
      cases rest with
      | nil => right; exact ⟨_, rfl⟩
      | cons w' rest' => left; rfl

lemma comment_state_eq (s : AppState) (author pk : Nat) (content : String)
    (t : AppState) (h : CommentFormView.form_valid s author pk content = some t) :
    t = { s with comments := s.comments ++ [⟨content, some author, pk⟩] } := by
  unfold CommentFormView.form_valid at h
  cases hf : findListing s pk with
  | none => rw [hf] at h; exact absurd h (by simp)
  | some l => rw [hf] at h; exact (Option.some.injEq _ _ ▸ h).symm

/-- Claim C6: the invariant "a winner is recorded only on an inactive listing
with at least one bid" is preserved by every operation — listing creation,
bid placement, commenting, watchlist add and remove, and closing under any
admissible database ordering — from any state satisfying it. -/
theorem winner_invariant_preserved (s t : AppState) (hinv : Inv s)
    (hstep : Step s t) : Inv t := by
  cases hstep with
  | create owner title description starting_bid image_url category =>
    intro l hl hwin
    have hl' : l ∈ s.listings ++
        [⟨s.nextListingId, owner, title, description, starting_bid,
          image_url, category, true, none⟩] := hl
    rcases List.mem_append.mp hl' with hmem | hmem
    · exact hinv l hmem hwin
    · obtain rfl : l = ⟨s.nextListingId, owner, title, description, starting_bid,
          image_url, category, true, none⟩ := by simpa using hmem
      exact absurd rfl hwin
  | placeBid bidder pk amount =>
    rcases form_valid_cases s bidder pk amount with ⟨_, hs⟩ | ⟨_, hs⟩
    · rw [hs]
      intro l hl hwin
      obtain ⟨hact, hbids⟩ := hinv l hl hwin
      exact ⟨hact, listingBids_saveBid_ne_nil s bidder pk amount l.id hbids⟩
    · rw [hs]; exact hinv
  | comment author pk content t h =>
    rw [comment_state_eq s author pk content t h]
    exact inv_comments_update s _ hinv
  | watchAdd u pk =>
    rcases watch_state_cases s u pk with hs | hs
    · rw [hs]; exact hinv
    · rw [hs]; exact inv_watchlists_update s _ hinv
  | watchRemove u pk =>
    rcases unwatch_state_cases s u pk with hs | ⟨ws, hs⟩
    · rw [hs]; exact hinv
    · rw [hs]; exact inv_watchlists_update s _ hinv
  | closeAuction requester pk ord hord =>
    cases ord with
    | nil =>
      have hnil : listingBids s pk = [] := hord.1.symm.eq_nil
      intro l' hl' hwin
      have hls : (close s requester pk []).2.listings =
          s.listings.map (fun l => if l.id = pk then { l with active := false } else l) :=
        rfl
      rw [hls] at hl'
      obtain ⟨l, hl, rfl⟩ := List.mem_map.mp hl'
      by_cases hid : l.id = pk
      · rw [if_pos hid] at hwin ⊢
        obtain ⟨_, hbids⟩ := hinv l hl hwin
        rw [hid] at hbids
        exact absurd hnil hbids
      · rw [if_neg hid] at hwin ⊢
        obtain ⟨hact, hbids⟩ := hinv l hl hwin
        exact ⟨hact, hbids⟩
    | cons top rest =>
      have hne : listingBids s pk ≠ [] := by
        intro h0
        have := hord.1
        rw [h0] at this
        exact absurd this.eq_nil (by simp)
      intro l' hl' hwin
      have hls : (close s requester pk (top :: rest)).2.listings =
          s.listings.map (fun l =>
            if l.id = pk then { l with active := false, winner := some top.bidder }
            else l) := rfl
      rw [hls] at hl'
      obtain ⟨l, hl, rfl⟩ := List.mem_map.mp hl'
      by_cases hid : l.id = pk
      · rw [if_pos hid]
        refine ⟨rfl, ?_⟩
        show listingBids s l.id ≠ []
        rw [hid]
        exact hne
      · rw [if_neg hid] at hwin ⊢
        obtain ⟨hact, hbids⟩ := hinv l hl hwin
        exact ⟨hact, hbids⟩

/-- Witness for C6: the §8 scenario state satisfies the invariant, and it
still holds after a further accepted bid of 500.00. -/
theorem winner_invariant_preserved_witness :
    Inv (BidFormView.form_valid sampleStateBids 12 1 50000).2 :=
  winner_invariant_preserved sampleStateBids _ (by decide)
    (Step.placeBid sampleStateBids 12 1 50000)

end Commerce
